import Mathlib

/-!
# Verification of the Multiscope signal-processing core

A shallow embedding of `src/multiscope/audio_analysis.py` (`AudioAnalyzer`)
and `src/multiscope/dance_analysis.py` (`DanceAnalyzer`), together with
proofs settling the behavioural claims about them.

Modelling conventions:
* Python floats are modelled by exact rationals `ℚ`.  All the properties
  proved below are robust under this choice: the concrete counterexamples
  use small dyadic-friendly values on which binary floating point is exact,
  and the universally quantified statements concern control flow, counting
  and sign information rather than rounding error.
* `math.sqrt` (and the `** 0.5` spelled square roots) are modelled by the
  rational square-root approximation `Rat.sqrt`.  No claim below depends on
  the value of a square root beyond `sqrt 0 = 0` and non-negativity, which
  `Rat.sqrt` shares with the real square root.
* `math.log2` is transcendental and is abstracted as an explicit function
  parameter `log2M`; no claim depends on its values (it only feeds the note
  name lookup, which every theorem below treats opaquely).
* Python `int(x)` truncates toward zero (`truncQ`), `//` is floor division
  (`Int.fdiv` / `⌊·⌋`), `%` is Python's nonnegative-for-positive-modulus
  remainder (`Int.emod`), and `round` is modelled by Mathlib's `round`
  (the ties-to-even versus ties-away difference at exact half-integers is
  irrelevant to every claim below).
-/

namespace Multiscope

/-- Python `int(q)` on a real number: truncation toward zero. -/
def truncQ (q : ℚ) : ℤ := if q < 0 then ⌈q⌉ else ⌊q⌋

/-! ## Audio analyzer (`src/multiscope/audio_analysis.py`) -/

/-- `MusicalAnalysis` dataclass. -/
structure MusicalAnalysis where
  tempo_bpm : ℚ
  key : String
  mode : String
  energy : ℚ
  spectral_centroid : ℚ
  commentary : String
  deriving Repr, DecidableEq

/-- `AudioAnalyzer._normalize`: divide by the peak absolute amplitude,
leaving the signal unchanged when the peak is zero.  (`max(absolute)` on the
nonempty list of absolute values is rendered as `foldr max 0`; the `0` seed
is absorbed because every element is nonnegative.) -/
def normalize (signal : List ℚ) : List ℚ :=
  let peak := (signal.map (fun x => |x|)).foldr max 0
  if peak = 0 then signal
  else signal.map (fun x => x / peak)

/-- `AudioAnalyzer._rms`: root mean square of the signal
(`math.sqrt` modelled by `Rat.sqrt`). -/
def rms (signal : List ℚ) : ℚ :=
  let squares := signal.map (fun x => x * x)
  Rat.sqrt (squares.sum / (squares.length : ℚ))

/-- The loop body of `AudioAnalyzer._zero_crossings`: walk adjacent pairs,
counting `(prev <= 0 < curr) or (prev >= 0 > curr)`. -/
def zcGo : List ℚ → ℕ
  | a :: b :: rest =>
      (if (a ≤ 0 ∧ 0 < b) ∨ (0 ≤ a ∧ b < 0) then 1 else 0) + zcGo (b :: rest)
  | _ => 0

/-- `AudioAnalyzer._zero_crossings`. -/
def zeroCrossings (signal : List ℚ) : ℕ := zcGo signal

/-- The loop of `AudioAnalyzer._moving_average`: a bounded queue with a
running cumulative sum; each step appends the new value, evicts the oldest
when the queue exceeds `window`, and emits `cumulative / len(queue)`. -/
def maGo (window : ℕ) : List ℚ → ℚ → List ℚ → List ℚ
  | _, _, [] => []
  | queue, cumulative, v :: rest =>
      if window < (queue ++ [v]).length then
        ((cumulative + v - (queue ++ [v]).headI) / (((queue ++ [v]).tail.length : ℕ) : ℚ)) ::
          maGo window (queue ++ [v]).tail (cumulative + v - (queue ++ [v]).headI) rest
      else
        ((cumulative + v) / (((queue ++ [v]).length : ℕ) : ℚ)) ::
          maGo window (queue ++ [v]) (cumulative + v) rest

/-- `AudioAnalyzer._moving_average`: returns the input unchanged for
`window <= 1`, otherwise the causal bounded-queue running mean. -/
def movingAverage (values : List ℚ) (window : ℤ) : List ℚ :=
  if window ≤ 1 then values
  else maGo window.toNat [] 0 values

/-- The envelope window used by `AudioAnalyzer._estimate_tempo`:
`max(1, int(sample_rate * 0.05))`. -/
def tempoWindow (sampleRate : ℤ) : ℤ :=
  max 1 (truncQ ((sampleRate : ℚ) * (5 / 100)))

/-- The amplitude envelope built inside `AudioAnalyzer._estimate_tempo`:
moving average of the absolute samples over `tempoWindow`. -/
def envelopeOf (signal : List ℚ) (sampleRate : ℤ) : List ℚ :=
  movingAverage (signal.map (fun x => |x|)) (tempoWindow sampleRate)

/-- One autocorrelation term of `_estimate_tempo`:
`sum(centered[i] * centered[i + lag] for i in range(len(centered) - lag))`. -/
def correlationAt (centered : List ℚ) (lag : ℕ) : ℚ :=
  (List.zipWith (· * ·) centered (centered.drop lag)).sum

/-- The lag-search loop of `_estimate_tempo`: `best_value` starts at `-inf`
(modelled as `none`), and a lag replaces the incumbent exactly when its
correlation is strictly greater. -/
def searchBest (centered : List ℚ) : List ℕ → Option ℚ → ℕ → ℕ
  | [], _, bestLag => bestLag
  | lag :: rest, bestVal, bestLag =>
      let c := correlationAt centered lag
      let better := match bestVal with
        | none => true
        | some v => decide (v < c)
      if better then searchBest centered rest (some c) lag
      else searchBest centered rest bestVal bestLag

/-- `AudioAnalyzer._estimate_tempo`. -/
def estimateTempo (signal : List ℚ) (sampleRate : ℤ) : ℚ :=
  let envelope := envelopeOf signal sampleRate
  let meanEnv := envelope.sum / (envelope.length : ℚ)
  let centered := envelope.map (fun x => x - meanEnv)
  if ∀ x ∈ centered, |x| < 1 / 1000000000 then 0
  else
    let minLag : ℤ := max 1 (truncQ ((sampleRate : ℚ) * 60 / 200))
    let maxLag : ℤ := min ((centered.length : ℤ) - 1) (truncQ ((sampleRate : ℚ) * 60 / 40))
    if maxLag ≤ minLag then 0
    else
      let bestLag := searchBest centered
        (List.range' minLag.toNat (maxLag - minLag).toNat) none minLag.toNat
      if bestLag = 0 then 0
      else 60 * (sampleRate : ℚ) / (bestLag : ℚ)

/-- Append the sharp sign to a natural note name. -/
def sharp (s : String) : String := s ++ "#"

/-- The note-name table of `AudioAnalyzer._frequency_to_note`
(`["C", "C#", "D", "D#", "E", "F", "F#", "G", "G#", "A", "A#", "B"]`,
the sharps spelled via `sharp`). -/
def noteNames : List String :=
  ["C", sharp "C", "D", sharp "D", "E",
   "F", sharp "F", "G", sharp "G", "A", sharp "A", "B"]

/-- `AudioAnalyzer._frequency_to_note` (with `math.log2` abstracted as
`log2M`): `midi = int(round(69 + 12*log2(f/440)))`, octave `midi // 12 - 1`
(floor division), name indexed by `midi % 12` (Python nonnegative mod). -/
def frequencyToNote (log2M : ℚ → ℚ) (frequency : ℚ) : String :=
  if frequency ≤ 0 then "Unknown"
  else
    let midiNumber : ℤ := round ((69 : ℚ) + 12 * log2M (frequency / 440))
    let octave := midiNumber.fdiv 12 - 1
    let name := noteNames.getD (midiNumber.emod 12).toNat ""
    name ++ toString octave

/-- `AudioAnalyzer._estimate_key_and_mode`. -/
def estimateKeyAndMode (log2M : ℚ → ℚ) (signal : List ℚ) (sampleRate : ℤ) :
    String × String :=
  let zeroCount := zeroCrossings signal
  let duration : ℚ := (signal.length : ℚ) / (sampleRate : ℚ)
  if zeroCount = 0 ∨ duration = 0 then ("Unknown", "Unknown")
  else
    let frequency := (zeroCount : ℚ) / (2 * duration)
    let key := frequencyToNote log2M frequency
    let positiveEnergy := (signal.map (fun x => max x 0 ^ 2)).sum
    let negativeEnergy := (signal.map (fun x => max (-x) 0 ^ 2)).sum
    let mode := if negativeEnergy ≤ positiveEnergy then "Major" else "Minor"
    (key, mode)

/-- `AudioAnalyzer._spectral_centroid`: guarded mean absolute first
difference, scaled by `sample_rate / 2`. -/
def spectralCentroid (signal : List ℚ) (sampleRate : ℤ) : ℚ :=
  if signal.length < 2 then 0
  else
    let differences := List.zipWith (fun a b => |b - a|) signal signal.tail
    if differences = [] then 0
    else
      let avgDiff := differences.sum / (differences.length : ℚ)
      avgDiff * (sampleRate : ℚ) / 2

/-- `AudioAnalyzer._compose_commentary`: the four threshold ladders. -/
def composeCommentary (tempo : ℚ) (key mode : String) (energy sc : ℚ) : String :=
  let d1 :=
    if tempo = 0 then
      "The soundtrack lacks a perceivable pulse, implying an ambient texture."
    else if tempo < 70 then
      "The tempo is slow, suggesting a contemplative or ritual pacing."
    else if tempo < 110 then
      "The moderate tempo leaves room for expressive phrasing."
    else
      "The brisk tempo points to lively movement and communal energy."
  let d2 := "Dominant pitch content centers around " ++ key ++ " (" ++ mode ++ " tonality)."
  let d3 :=
    if energy < 1 / 10 then "Overall dynamics are soft and restrained."
    else if energy < 3 / 10 then "Energy levels remain balanced, with measured intensity."
    else "High average energy hints at emphatic percussion or dense instrumentation."
  let d4 :=
    if sc < 500 then "Timbre leans toward low, resonant textures."
    else if sc < 2000 then "Mid-range timbres dominate the mix, providing warmth and clarity."
    else "A bright timbral profile indicates significant high-frequency content."
  String.intercalate " " [d1, d2, d3, d4]

/-- `AudioAnalyzer.analyze_signal` on a flat (single-channel) waveform, on
which `_to_mono` is the identity.  `sample_rate or self.sample_rate` means a
sample rate of `0` (falsy) silently falls back to the default `22050`.
Failure is modelled with `Except`. -/
def analyzeSignal (log2M : ℚ → ℚ) (signal : List ℚ) (sampleRate : ℤ) :
    Except String MusicalAnalysis :=
  let flattened := signal
  let sr : ℤ := if sampleRate = 0 then 22050 else sampleRate
  if flattened = [] then
    .error "Audio signal is empty; unable to perform analysis."
  else
    let normalized := normalize flattened
    let tempo := estimateTempo normalized sr
    let km := estimateKeyAndMode log2M normalized sr
    let energy := rms normalized
    let sc := spectralCentroid normalized sr
    .ok { tempo_bpm := tempo
          key := km.1
          mode := km.2
          energy := energy
          spectral_centroid := sc
          commentary := composeCommentary tempo km.1 km.2 energy sc }

/-- Projection: the `tempo_bpm` field of a successful analysis (`0` on error). -/
def tempoOf (e : Except String MusicalAnalysis) : ℚ :=
  match e with
  | .ok r => r.tempo_bpm
  | .error _ => 0

/-- Projection: the `key` field of a successful analysis (`""` on error). -/
def keyOf (e : Except String MusicalAnalysis) : String :=
  match e with
  | .ok r => r.key
  | .error _ => ""

/-- Projection: the `energy` field of a successful analysis (`0` on error). -/
def energyOf (e : Except String MusicalAnalysis) : ℚ :=
  match e with
  | .ok r => r.energy
  | .error _ => 0

/-- Projection: the `spectral_centroid` field of a successful analysis
(`0` on error). -/
def centroidOf (e : Except String MusicalAnalysis) : ℚ :=
  match e with
  | .ok r => r.spectral_centroid
  | .error _ => 0

/-! ## Dance analyzer (`src/multiscope/dance_analysis.py`)

Frames reach the numerical core as grayscale matrices (`List (List ℚ)`):
`_to_matrix` is the identity on a numeric matrix and `_to_grayscale` is the
identity on single-channel frames.  The colour path is modelled by the
standalone `toGrayscale` below. -/

/-- `DanceAnalysis` dataclass. -/
structure DanceAnalysis where
  average_motion : ℚ
  motion_variability : ℚ
  direction_changes : ℕ
  footwork_intensity : ℚ
  commentary : String
  deriving Repr, DecidableEq

/-- `DanceAnalyzer._to_grayscale` on a three-channel frame: per-pixel luma
`0.2989*R + 0.5870*G + 0.1140*B`. -/
def toGrayscale (frame : List (List (ℚ × ℚ × ℚ))) : List (List ℚ) :=
  frame.map (fun row => row.map (fun p =>
    (2989 / 10000) * p.1 + (5870 / 10000) * p.2.1 + (1140 / 10000) * p.2.2))

/-- The per-pair body of `DanceAnalyzer._motion_profile`: sum of absolute
pixel differences over the minimum common extent (outer `min` on row counts,
inner `min` on each row pair, both realised by `zipWith` truncation),
divided by the pixel count, `0` when the common extent is empty. -/
def frameDiff (prev curr : List (List ℚ)) : ℚ :=
  let rows := List.zipWith (fun rp rc => List.zipWith (fun p c => |c - p|) rp rc) prev curr
  let count : ℕ := (rows.map (fun r => r.length)).sum
  if count = 0 then 0
  else (rows.map (fun r => r.sum)).sum / (count : ℚ)

/-- `DanceAnalyzer._motion_profile`: one `frameDiff` per adjacent pair. -/
def motionProfile : List (List (List ℚ)) → List ℚ
  | a :: b :: rest => frameDiff a b :: motionProfile (b :: rest)
  | _ => []

/-- `DanceAnalyzer._center_of_mass_trajectory` for one frame: the
intensity-weighted centroid `(Σ y·I, Σ x·I) / Σ I`, falling back to the
geometric centre `(len(frame)/2, len(frame[0])/2 if frame else 0)` when the
total intensity is zero. -/
def centerOfMass (frame : List (List ℚ)) : ℚ × ℚ :=
  let total := (frame.map (fun row => row.sum)).sum
  if total = 0 then
    ((frame.length : ℚ) / 2, if frame = [] then 0 else (frame.headI.length : ℚ) / 2)
  else
    let ySum := (frame.enum.map (fun yr => (yr.2.map (fun v => (yr.1 : ℚ) * v)).sum)).sum
    let xSum := (frame.map (fun row => (row.enum.map (fun xv => (xv.1 : ℚ) * xv.2)).sum)).sum
    (ySum / total, xSum / total)

/-- `DanceAnalyzer._center_of_mass_trajectory`. -/
def centerOfMassTrajectory (frames : List (List (List ℚ))) : List (ℚ × ℚ) :=
  frames.map centerOfMass

/-- The sign of a horizontal delta in `_count_direction_changes`:
`1 if delta_x > 0 else -1 if delta_x < 0 else 0`. -/
def signQ (d : ℚ) : ℤ := if 0 < d then 1 else if d < 0 then -1 else 0

/-- The loop of `DanceAnalyzer._count_direction_changes` over the per-step
signs: increment when the current sign is nonzero, the tracked sign is
nonzero and they differ; a nonzero sign replaces the tracked sign. -/
def dcGo : ℤ → List ℤ → ℕ
  | _, [] => 0
  | prevSign, s :: rest =>
      (if prevSign ≠ 0 ∧ s ≠ 0 ∧ s ≠ prevSign then 1 else 0) +
        dcGo (if s ≠ 0 then s else prevSign) rest

/-- The consecutive horizontal deltas `curr_x - prev_x` of a trajectory of
`(y, x)` centroids. -/
def xDeltas (traj : List (ℚ × ℚ)) : List ℚ :=
  List.zipWith (fun p c => c.2 - p.2) traj traj.tail

/-- `DanceAnalyzer._count_direction_changes`. -/
def countDirectionChanges (traj : List (ℚ × ℚ)) : ℕ :=
  if traj.length < 3 then 0
  else dcGo 0 ((xDeltas traj).map signQ)

/-- The per-frame gradient of `DanceAnalyzer._estimate_footwork_intensity`:
for every pixel, `sqrt((right-center)^2 + (down-center)^2)` with forward
differences, edge pixels reusing the centre value; averaged over the
frame's pixels (`0` for a pixel-free frame). -/
def footworkOfFrame (frame : List (List ℚ)) : ℚ :=
  let pix := frame.enum.map (fun yr =>
    yr.2.enum.map (fun xc =>
      let center := xc.2
      let right := yr.2.getD (xc.1 + 1) center
      let down := (frame.getD (yr.1 + 1) []).getD xc.1 center
      Rat.sqrt ((right - center) ^ 2 + (down - center) ^ 2)))
  let total := (pix.map (fun r => r.sum)).sum
  let count : ℕ := (pix.map (fun r => r.length)).sum
  if count = 0 then 0 else total / (count : ℚ)

/-- `DanceAnalyzer._estimate_footwork_intensity`: frame gradients averaged
over all frames. -/
def estimateFootworkIntensity (frames : List (List (List ℚ))) : ℚ :=
  let gradients := frames.map footworkOfFrame
  if gradients = [] then 0 else gradients.sum / (gradients.length : ℚ)

/-- `DanceAnalyzer._stddev`: population standard deviation with `** 0.5`
modelled by `Rat.sqrt`; `0` on the empty list. -/
def stddev (values : List ℚ) : ℚ :=
  if values = [] then 0
  else
    let meanValue := values.sum / (values.length : ℚ)
    let variance := (values.map (fun v => (v - meanValue) ^ 2)).sum / (values.length : ℚ)
    Rat.sqrt variance

/-- The final sentence of `DanceAnalyzer._compose_commentary`:
`fps / max(1, fps // frame_sample_rate) if fps else 0`, with the default
`frame_sample_rate = 3`. -/
def effectiveSampling (fps : ℚ) : ℚ :=
  if fps = 0 then 0 else fps / max 1 ((⌊fps / 3⌋ : ℤ) : ℚ)

/-- Decimal rendering of the effective sampling rate.  Models Python's
`f"{x:.1f}"` (the ties-to-even versus ties-away difference at exact
half-tenths is irrelevant to every claim below). -/
def format1f (q : ℚ) : String :=
  let n : ℤ := round (q * 10)
  toString (n.tdiv 10) ++ "." ++ toString (n.tmod 10).natAbs

/-- `DanceAnalyzer._compose_commentary`: the four threshold ladders plus the
effective-sampling sentence. -/
def composeDanceCommentary (averageMotion motionVariability : ℚ)
    (directionChanges : ℕ) (footworkIntensity : ℚ) (fps : ℚ) : String :=
  let d1 :=
    if averageMotion < 1 / 100 then
      "Movement is minimal, indicating either stillness or slow gestures."
    else if averageMotion < 5 / 100 then
      "The dance exhibits contained motion with deliberate control."
    else
      "High motion energy points to vigorous, full-bodied choreography."
  let d2 :=
    if motionVariability < 1 / 100 then
      "Motion variance is low, suggesting repeated, cyclical phrases."
    else
      "Variation in motion indicates dynamic phrasing and spatial exploration."
  let d3 :=
    if directionChanges = 0 then
      "The dancer maintains a consistent facing with minimal turns."
    else if directionChanges < 3 then
      "A handful of direction changes provide accent and contrast."
    else
      "Frequent turns and reorientations signal intricate partnering or folk steps."
  let d4 :=
    if footworkIntensity < 2 / 100 then
      "Footwork articulation is subtle, favouring upper-body expression."
    else if footworkIntensity < 5 / 100 then
      "Balanced footwork supports gestures across the body."
    else
      "Pronounced footwork dominates the choreography, highlighting rhythmic grounding."
  let d5 := "Frame sampling at approximately " ++ format1f (effectiveSampling fps) ++
    " fps captures the movement envelope."
  String.intercalate " " [d1, d2, d3, d4, d5]

/-- `DanceAnalyzer.analyze_frames` on grayscale frames. -/
def analyzeFrames (frames : List (List (List ℚ))) (fps : ℚ) :
    Except String DanceAnalysis :=
  if frames = [] then
    .error "At least one frame is required for dance analysis."
  else
    let grayFrames := frames
    let profile := motionProfile grayFrames
    let movementVectors := centerOfMassTrajectory grayFrames
    let averageMotion := if profile = [] then 0 else profile.sum / (profile.length : ℚ)
    let motionVariability := if profile = [] then 0 else stddev profile
    let directionChanges := countDirectionChanges movementVectors
    let footworkIntensity := estimateFootworkIntensity grayFrames
    .ok { average_motion := averageMotion
          motion_variability := motionVariability
          direction_changes := directionChanges
          footwork_intensity := footworkIntensity
          commentary := composeDanceCommentary averageMotion motionVariability
            directionChanges footworkIntensity fps }

/-! ## Specification-side definitions

These render the claims' own wording, to be compared with the definitions
translated from the source above. -/

/-- The last `n` elements of a list (the "most recent" values). -/
def lastN (n : ℕ) (l : List ℚ) : List ℚ := l.drop (l.length - n)

/-- The claim's causal running mean: the `i`-th output averages the most
recent up-to-`w` values among the first `i + 1`. -/
def runningMeanSpec (values : List ℚ) (w : ℕ) : List ℚ :=
  (List.range values.length).map (fun i =>
    let seg := lastN w (values.take (i + 1))
    seg.sum / (seg.length : ℚ))

/-- Recursive presentation of the causal running mean, used to bridge the
bounded-queue loop and the indexed form. -/
def rmGo (w : ℕ) (prev : List ℚ) : List ℚ → List ℚ
  | [] => []
  | v :: rest =>
      (lastN w (prev ++ [v])).sum / ((lastN w (prev ++ [v])).length : ℚ) ::
        rmGo w (prev ++ [v]) rest

/-- The claim's direction-change count over the sequence of nonzero delta
signs: one increment per adjacent unequal pair. -/
def adjFlips : List ℤ → ℕ
  | a :: b :: rest => (if a ≠ b then 1 else 0) + adjFlips (b :: rest)
  | _ => 0

/-- The claim's per-pair motion value: mean absolute pixel-wise difference
over the minimum common extent, written with explicit index ranges. -/
def specMeanAbsDiff (prev curr : List (List ℚ)) : ℚ :=
  let mRows := min prev.length curr.length
  let rowExtent := fun y => min (prev.getD y []).length (curr.getD y []).length
  let count := ((List.range mRows).map rowExtent).sum
  let total := ((List.range mRows).map (fun y =>
    ((List.range (rowExtent y)).map (fun x =>
      |(curr.getD y []).getD x 0 - (prev.getD y []).getD x 0|)).sum)).sum
  if count = 0 then 0 else total / (count : ℚ)

/-- The claim's population standard deviation (`0` on the empty list, the
square root modelled by `Rat.sqrt` as everywhere in this file). -/
def specPopStddev (values : List ℚ) : ℚ :=
  if values = [] then 0
  else Rat.sqrt
    ((values.map (fun v => (v - values.sum / (values.length : ℚ)) ^ 2)).sum /
      (values.length : ℚ))

/-- All numeric fields of a successful musical analysis are nonnegative
(vacuous on a rejected input). -/
def audioFieldsNonneg (e : Except String MusicalAnalysis) : Prop :=
  match e with
  | .ok r => 0 ≤ r.tempo_bpm ∧ 0 ≤ r.energy ∧ 0 ≤ r.spectral_centroid
  | .error _ => True

/-- All numeric fields of a successful dance analysis are nonnegative
(vacuous on a rejected input; `direction_changes` is a `ℕ` and is stated
through its integer cast). -/
def danceFieldsNonneg (e : Except String DanceAnalysis) : Prop :=
  match e with
  | .ok r => 0 ≤ r.average_motion ∧ 0 ≤ r.motion_variability ∧
      0 ≤ (r.direction_changes : ℤ) ∧ 0 ≤ r.footwork_intensity
  | .error _ => True

/-! ## Helper lemmas -/

lemma normalize_length (s : List ℚ) : (normalize s).length = s.length := by
  by_cases h : (s.map (fun x => |x|)).foldr max 0 = 0 <;> simp [normalize, h]

lemma normalize_ne_nil {s : List ℚ} (h : s ≠ []) : normalize s ≠ [] := by
  intro hc
  apply h
  have := normalize_length s
  rw [hc] at this
  exact List.length_eq_zero.mp this.symm

lemma lastN_nil (w : ℕ) : lastN w [] = [] := by
  simp [lastN]

lemma lastN_append_step (w : ℕ) (prev : List ℚ) (v : ℚ) :
    lastN w (prev ++ [v]) =
      if w < (lastN w prev ++ [v]).length then (lastN w prev ++ [v]).tail
      else lastN w prev ++ [v] := by
  have hlen : (lastN w prev).length = prev.length - (prev.length - w) := by
    simp [lastN]
  by_cases hpw : w ≤ prev.length
  · have hL : (lastN w prev).length = w := by omega
    have hcond : w < (lastN w prev ++ [v]).length := by
      simp [hL]
    rw [if_pos hcond]
    have hidx : prev.length + 1 - w = (prev.length - w) + 1 := by omega
    have hdrop : lastN w (prev ++ [v]) =
        (List.drop (prev.length - w) (prev ++ [v])).tail := by
      simp only [lastN, List.length_append, List.length_cons, List.length_nil]
      rw [hidx, ← List.drop_drop _ _ (prev ++ [v]), List.drop_one]
    rw [hdrop, List.drop_append_of_le_length (by omega)]
    rfl
  · have h0 : prev.length - w = 0 := by omega
    have hL : lastN w prev = prev := by
      simp [lastN, h0]
    have hlen2 : prev.length + 1 - w = 0 := by omega
    have hcond : ¬ w < (lastN w prev ++ [v]).length := by
      simp [hL]
      omega
    rw [if_neg hcond, hL]
    simp only [lastN, List.length_append, List.length_cons, List.length_nil]
    rw [hlen2]
    rfl

lemma headI_add_tail_sum {l : List ℚ} (h : l ≠ []) : l.headI + l.tail.sum = l.sum := by
  cases l with
  | nil => exact absurd rfl h
  | cons a t => simp

lemma maGo_eq_rmGo (w : ℕ) :
    ∀ (rest prev : List ℚ),
      maGo w (lastN w prev) (lastN w prev).sum rest = rmGo w prev rest := by
  intro rest
  induction rest with
  | nil => intro prev; rfl
  | cons v rest ih =>
      intro prev
      have hstep := lastN_append_step w prev v
      rw [maGo, rmGo]
      by_cases hcond : w < (lastN w prev ++ [v]).length
      · have hq2 : lastN w (prev ++ [v]) = (lastN w prev ++ [v]).tail := by
          rw [hstep, if_pos hcond]
        have hne : lastN w prev ++ [v] ≠ [] := by simp
        have hc2 : (lastN w prev).sum + v - (lastN w prev ++ [v]).headI =
            (lastN w (prev ++ [v])).sum := by
          have hs := headI_add_tail_sum hne
          have hsum : (lastN w prev ++ [v]).sum = (lastN w prev).sum + v := by simp
          rw [hq2]
          linarith
        rw [if_pos hcond, hc2, ← hq2, ih (prev ++ [v])]
      · have hq2 : lastN w (prev ++ [v]) = lastN w prev ++ [v] := by
          rw [hstep, if_neg hcond]
        have hc2 : (lastN w prev).sum + v = (lastN w (prev ++ [v])).sum := by
          rw [hq2]
          simp
        rw [if_neg hcond, hc2, ← hq2, ih (prev ++ [v])]

lemma rmGo_eq_indexed (w : ℕ) :
    ∀ (rest prev : List ℚ),
      rmGo w prev rest = (List.range rest.length).map (fun i =>
        (lastN w (prev ++ rest.take (i + 1))).sum /
          ((lastN w (prev ++ rest.take (i + 1))).length : ℚ)) := by
  intro rest
  induction rest with
  | nil => intro prev; rfl
  | cons v rest ih =>
      intro prev
      rw [rmGo, ih (prev ++ [v])]
      simp only [List.length_cons, List.range_succ_eq_map, List.map_cons, List.map_map]
      rw [List.cons.injEq]
      refine ⟨by simp, ?_⟩
      apply List.map_congr_left
      intro i _
      simp only [Function.comp_apply, Nat.succ_eq_add_one, List.take_succ_cons,
        List.append_assoc, List.singleton_append]

lemma movingAverage_eq_runningMean (values : List ℚ) (w : ℤ) (hw : 1 ≤ w) :
    movingAverage values w = runningMeanSpec values w.toNat := by
  by_cases h1 : w ≤ 1
  · have hw1 : w = 1 := le_antisymm h1 hw
    subst hw1
    rw [movingAverage, if_pos le_rfl]
    apply List.ext_getElem
    · simp [runningMeanSpec]
    · intro n h₁ h₂
      have hn : n < values.length := h₁
      simp only [runningMeanSpec, Int.toNat_one, List.getElem_map, List.getElem_range]
      have hseg : lastN 1 (values.take (n + 1)) = [values[n]] := by
        have hlen : (values.take (n + 1)).length = n + 1 := by
          simp [Nat.succ_le_of_lt hn]
        simp only [lastN, hlen, Nat.add_sub_cancel]
        rw [List.drop_take]
        have := List.take_one_drop_eq_of_lt_length (l := values) (n := n) hn
        simpa using this
      simp [hseg]
  · rw [movingAverage, if_neg h1]
    have : maGo w.toNat (lastN w.toNat []) (lastN w.toNat []).sum values =
        rmGo w.toNat [] values := maGo_eq_rmGo w.toNat values []
    rw [lastN_nil] at this
    simp only [List.sum_nil] at this
    rw [this, rmGo_eq_indexed]
    simp [runningMeanSpec]

lemma truncQ_eval {q : ℚ} {z : ℤ} (h0 : 0 ≤ q) (h1 : (z : ℚ) ≤ q) (h2 : q < z + 1) :
    truncQ q = z := by
  rw [truncQ, if_neg (not_lt.mpr h0), Int.floor_eq_iff]
  · exact ⟨h1, by exact_mod_cast h2⟩

lemma truncQ_eval_neg {q : ℚ} {z : ℤ} (h0 : q < 0) (h1 : (z : ℚ) - 1 < q) (h2 : q ≤ z) :
    truncQ q = z := by
  rw [truncQ, if_pos h0, Int.ceil_eq_iff]
  · exact ⟨by exact_mod_cast h1, h2⟩

lemma truncQ_le_self {q : ℚ} (h0 : 0 ≤ q) : ((truncQ q : ℤ) : ℚ) ≤ q := by
  rw [truncQ, if_neg (not_lt.mpr h0)]
  exact Int.floor_le q

lemma foldr_max_replicate_zero : ∀ n : ℕ, (List.replicate n (0 : ℚ)).foldr max 0 = 0 := by
  intro n
  induction n with
  | zero => rfl
  | succ n ih => simp [List.replicate_succ, ih]

lemma normalize_replicate_zero (n : ℕ) :
    normalize (List.replicate n (0 : ℚ)) = List.replicate n 0 := by
  unfold normalize
  simp only [List.map_replicate, abs_zero]
  rw [foldr_max_replicate_zero]
  simp

lemma runningMeanSpec_replicate_zero (n w : ℕ) :
    runningMeanSpec (List.replicate n (0 : ℚ)) w = List.replicate n 0 := by
  rw [List.eq_replicate_iff]
  constructor
  · simp [runningMeanSpec]
  · intro b hb
    simp only [runningMeanSpec, List.mem_map] at hb
    obtain ⟨i, _, hi⟩ := hb
    rw [← hi]
    simp [lastN, List.take_replicate, List.drop_replicate]

lemma one_le_tempoWindow (sr : ℤ) : 1 ≤ tempoWindow sr := le_max_left _ _

lemma estimateTempo_silence (n : ℕ) (sr : ℤ) :
    estimateTempo (List.replicate n (0 : ℚ)) sr = 0 := by
  have henv : envelopeOf (List.replicate n (0 : ℚ)) sr = List.replicate n 0 := by
    unfold envelopeOf
    rw [List.map_replicate]
    simp only [abs_zero]
    rw [movingAverage_eq_runningMean _ _ (one_le_tempoWindow sr),
      runningMeanSpec_replicate_zero]
  have hsum : (List.replicate n (0 : ℚ)).sum = 0 := by simp
  unfold estimateTempo
  rw [henv]
  have hcond : ∀ x ∈ (List.replicate n (0 : ℚ)).map
      (fun x => x - (List.replicate n (0 : ℚ)).sum / ((List.replicate n (0 : ℚ)).length : ℚ)),
      |x| < 1 / 1000000000 := by
    intro x hx
    rw [List.map_replicate, List.mem_replicate] at hx
    rw [hx.2, hsum]
    norm_num
  simp only [if_pos hcond]

lemma zcGo_zeros : ∀ (s : List ℚ), (∀ x ∈ s, x = 0) → zcGo s = 0 := by
  intro s
  induction s with
  | nil => intro _; rfl
  | cons a rest ih =>
      intro h
      cases rest with
      | nil => rfl
      | cons b rest2 =>
          have ha : a = 0 := h a (by simp)
          have hb : b = 0 := h b (by simp)
          rw [zcGo]
          have hcond : ¬ ((a ≤ 0 ∧ 0 < b) ∨ (0 ≤ a ∧ b < 0)) := by
            rw [ha, hb]
            norm_num
          rw [if_neg hcond]
          have := ih (fun x hx => h x (List.mem_cons_of_mem a hx))
          omega

lemma rms_replicate_zero (n : ℕ) : rms (List.replicate n (0 : ℚ)) = 0 := by
  unfold rms
  simp only [List.map_replicate, mul_zero, List.sum_replicate, smul_zero, zero_div]
  rfl

lemma zeroCrossings_replicate_zero (n : ℕ) :
    zeroCrossings (List.replicate n (0 : ℚ)) = 0 := by
  apply zcGo_zeros
  intro x hx
  exact (List.mem_replicate.mp hx).2

/-! ## Claim theorems -/

/-- **C2**: calling `analyze_signal` on an empty waveform and
`analyze_frames` on an empty frame sequence both raise the respective
input-validation error; neither silently returns a default descriptor. -/
theorem empty_input_error (log2M : ℚ → ℚ) (sr : ℤ) (fps : ℚ) :
    analyzeSignal log2M [] sr =
      Except.error "Audio signal is empty; unable to perform analysis." ∧
    analyzeFrames [] fps =
      Except.error "At least one frame is required for dance analysis." :=
  ⟨rfl, rfl⟩

/-- **C9**: both extractors are pure functions of their inputs in this
embedding, so two calls with identical waveform/sample rate (resp. frames/
frame rate) yield identical descriptor records in every field. -/
theorem analysis_deterministic (log2M : ℚ → ℚ) (s : List ℚ) (sr : ℤ)
    (frames : List (List (List ℚ))) (fps : ℚ) :
    analyzeSignal log2M s sr = analyzeSignal log2M s sr ∧
    analyzeFrames frames fps = analyzeFrames frames fps :=
  ⟨rfl, rfl⟩

/-- **C10**: for a waveform of fewer than 2 samples the brightness proxy is
exactly `0`: `_spectral_centroid` is guarded by the length check, and a
one-sample waveform flows through `analyze_signal` to a `spectral_centroid`
field of `0` rather than an error. -/
theorem centroid_short_guard :
    (∀ (s : List ℚ) (sr : ℤ), s.length < 2 → spectralCentroid s sr = 0) ∧
    (∀ (log2M : ℚ → ℚ) (x : ℚ) (sr : ℤ), centroidOf (analyzeSignal log2M [x] sr) = 0) := by
  have h1 : ∀ (s : List ℚ) (sr : ℤ), s.length < 2 → spectralCentroid s sr = 0 := by
    intro s sr h
    unfold spectralCentroid
    rw [if_pos h]
  refine ⟨h1, ?_⟩
  intro log2M x sr
  simp only [analyzeSignal]
  rw [if_neg (by simp : ¬([x] = ([] : List ℚ)))]
  simp only [centroidOf]
  apply h1
  rw [normalize_length]
  simp

/-- Witness for `centroid_short_guard`. -/
theorem centroid_short_guard_witness :
    spectralCentroid [5] 3 = 0 ∧ centroidOf (analyzeSignal (fun _ => 0) [7] 5) = 0 :=
  ⟨centroid_short_guard.1 [5] 3 (by simp), centroid_short_guard.2 (fun _ => 0) 7 5⟩

/-- **C3**: an all-zero waveform of any positive length, at any positive
sample rate, is analyzed without error and yields `tempo_bpm = 0`,
`key = "Unknown"` and `energy = 0`. -/
theorem silence_analysis (log2M : ℚ → ℚ) (n : ℕ) (sr : ℤ) (hn : 1 ≤ n) (hsr : 1 ≤ sr) :
    (analyzeSignal log2M (List.replicate n 0) sr).isOk = true ∧
    tempoOf (analyzeSignal log2M (List.replicate n 0) sr) = 0 ∧
    keyOf (analyzeSignal log2M (List.replicate n 0) sr) = "Unknown" ∧
    energyOf (analyzeSignal log2M (List.replicate n 0) sr) = 0 := by
  have hne : ¬(List.replicate n (0 : ℚ) = []) := by
    simp only [List.replicate_eq_nil_iff]
    omega
  have hsr0 : ¬(sr = 0) := by omega
  have hkm : estimateKeyAndMode log2M (List.replicate n (0 : ℚ)) sr = ("Unknown", "Unknown") := by
    unfold estimateKeyAndMode
    rw [zeroCrossings_replicate_zero]
    simp
  refine ⟨?_, ?_, ?_, ?_⟩ <;>
    simp only [analyzeSignal, if_neg hne, if_neg hsr0, normalize_replicate_zero,
      estimateTempo_silence, hkm, rms_replicate_zero, tempoOf, keyOf, energyOf,
      Except.isOk]
  rfl

/-- Witness for `silence_analysis`. -/
theorem silence_analysis_witness :
    (analyzeSignal (fun _ => 0) (List.replicate 3 0) 5).isOk = true ∧
    tempoOf (analyzeSignal (fun _ => 0) (List.replicate 3 0) 5) = 0 ∧
    keyOf (analyzeSignal (fun _ => 0) (List.replicate 3 0) 5) = "Unknown" ∧
    energyOf (analyzeSignal (fun _ => 0) (List.replicate 3 0) 5) = 0 :=
  silence_analysis (fun _ => 0) 3 5 (by decide) (by decide)

lemma dcGo_eq_adjFlips :
    ∀ (signs : List ℤ) (p : ℤ),
      dcGo p signs =
        adjFlips ((if p = 0 then [] else [p]) ++ signs.filter (fun s => s ≠ 0)) := by
  intro signs
  induction signs with
  | nil =>
      intro p
      by_cases hp : p = 0 <;> simp [hp, dcGo, adjFlips]
  | cons s rest ih =>
      intro p
      by_cases hs : s = 0
      · subst hs
        rw [dcGo]
        simp only [ne_eq, not_true_eq_false, and_false, false_and, if_false, if_neg]
        rw [List.filter_cons_of_neg (by simp)]
        simpa using ih p
      · rw [dcGo, List.filter_cons_of_pos (by simpa using hs)]
        by_cases hp : p = 0
        · subst hp
          rw [if_neg (by simp), if_pos hs]
          rw [ih s, if_neg hs]
          simp
        · rw [if_pos hs, ih s, if_neg hs, if_neg hp]
          have hcount : (if p ≠ 0 ∧ s ≠ 0 ∧ s ≠ p then 1 else 0) =
              (if p ≠ s then 1 else 0 : ℕ) := by
            by_cases hps : s = p
            · subst hps
              simp
            · rw [if_pos ⟨hp, hs, hps⟩, if_pos (fun hpe => hps hpe.symm)]
          rw [hcount]
          have hflips : adjFlips (p :: s :: rest.filter (fun s => s ≠ 0)) =
              (if p ≠ s then 1 else 0) + adjFlips (s :: rest.filter (fun s => s ≠ 0)) := by
            rw [adjFlips]
          rw [List.singleton_append, List.singleton_append, hflips]

/-- **C6**: the direction-change count equals the number of adjacent
unequal pairs among the nonzero signs of the consecutive horizontal deltas
(zero deltas are discarded without resetting the tracked sign), is `0` for
trajectories of fewer than 3 points, and a horizontal trajectory moving
right for 3 steps then left for 3 steps yields exactly 1 change. -/
theorem direction_change_tracking :
    (∀ traj : List (ℚ × ℚ), countDirectionChanges traj =
      if traj.length < 3 then 0
      else adjFlips (((xDeltas traj).map signQ).filter (fun s => s ≠ 0))) ∧
    countDirectionChanges [((0 : ℚ), (0 : ℚ)), (0, 1), (0, 2), (0, 3), (0, 2), (0, 1), (0, 0)] = 1 := by
  have hgen : ∀ traj : List (ℚ × ℚ), countDirectionChanges traj =
      if traj.length < 3 then 0
      else adjFlips (((xDeltas traj).map signQ).filter (fun s => s ≠ 0)) := by
    intro traj
    unfold countDirectionChanges
    by_cases h : traj.length < 3
    · rw [if_pos h, if_pos h]
    · rw [if_neg h, if_neg h, dcGo_eq_adjFlips]
      simp
  refine ⟨hgen, ?_⟩
  rw [hgen]
  norm_num [xDeltas, signQ, adjFlips]

/-- **C5**: with a non-empty signal and positive sample rate, zero
crossings `= 0` (or zero duration) forces `("Unknown", "Unknown")`;
otherwise the key is the note name of `crossings / (2 * duration)` and the
mode is `"Major"` exactly when the positive-lobe energy is at least the
negative-lobe energy, `"Minor"` exactly otherwise. -/
theorem key_mode_estimation (log2M : ℚ → ℚ) (s : List ℚ) (sr : ℤ)
    (hs : s ≠ []) (hsr : 1 ≤ sr) :
    ((zeroCrossings s = 0 ∨ (s.length : ℚ) / (sr : ℚ) = 0) →
      estimateKeyAndMode log2M s sr = ("Unknown", "Unknown")) ∧
    (zeroCrossings s ≠ 0 →
      (estimateKeyAndMode log2M s sr).1 =
        frequencyToNote log2M
          ((zeroCrossings s : ℚ) / (2 * ((s.length : ℚ) / (sr : ℚ)))) ∧
      ((estimateKeyAndMode log2M s sr).2 = "Major" ↔
        (s.map (fun x => max (-x) 0 ^ 2)).sum ≤ (s.map (fun x => max x 0 ^ 2)).sum) ∧
      ((estimateKeyAndMode log2M s sr).2 = "Minor" ↔
        (s.map (fun x => max x 0 ^ 2)).sum < (s.map (fun x => max (-x) 0 ^ 2)).sum)) := by
  have hdur : ¬((s.length : ℚ) / (sr : ℚ) = 0) := by
    have hlen : 0 < s.length := List.length_pos.mpr hs
    have h1 : (0 : ℚ) < (s.length : ℚ) := by exact_mod_cast hlen
    have h2 : (0 : ℚ) < (sr : ℚ) := by
      have : (0 : ℤ) < sr := by omega
      exact_mod_cast this
    exact ne_of_gt (div_pos h1 h2)
  constructor
  · intro h
    simp only [estimateKeyAndMode]
    rw [if_pos h]
  · intro hzc
    simp only [estimateKeyAndMode]
    rw [if_neg (not_or.mpr ⟨hzc, hdur⟩)]
    refine ⟨rfl, ?_, ?_⟩
    · by_cases hcmp : (s.map (fun x => max (-x) 0 ^ 2)).sum ≤ (s.map (fun x => max x 0 ^ 2)).sum
      · rw [if_pos hcmp]
        simp [hcmp]
      · rw [if_neg hcmp]
        constructor
        · intro hMM
          have hMM2 : ("Minor" : String) = "Major" := hMM
          exact absurd hMM2 (by decide)
        · intro hc
          exact absurd hc hcmp
    · by_cases hcmp : (s.map (fun x => max (-x) 0 ^ 2)).sum ≤ (s.map (fun x => max x 0 ^ 2)).sum
      · rw [if_pos hcmp]
        constructor
        · intro hMM
          have hMM2 : ("Major" : String) = "Minor" := hMM
          exact absurd hMM2 (by decide)
        · intro hc
          exact absurd hcmp (not_le.mpr hc)
      · rw [if_neg hcmp]
        simp [not_le.mp hcmp]

/-- Witness for `key_mode_estimation`. -/
theorem key_mode_estimation_witness :
    ((zeroCrossings [(1 : ℚ), -1] = 0 ∨ (([(1 : ℚ), -1].length : ℚ) / ((2 : ℤ) : ℚ) = 0)) →
      estimateKeyAndMode (fun _ => 0) [(1 : ℚ), -1] 2 = ("Unknown", "Unknown")) ∧
    (zeroCrossings [(1 : ℚ), -1] ≠ 0 →
      (estimateKeyAndMode (fun _ => 0) [(1 : ℚ), -1] 2).1 =
        frequencyToNote (fun _ => 0)
          ((zeroCrossings [(1 : ℚ), -1] : ℚ) / (2 * (([(1 : ℚ), -1].length : ℚ) / ((2 : ℤ) : ℚ)))) ∧
      ((estimateKeyAndMode (fun _ => 0) [(1 : ℚ), -1] 2).2 = "Major" ↔
        ([(1 : ℚ), -1].map (fun x => max (-x) 0 ^ 2)).sum ≤
          ([(1 : ℚ), -1].map (fun x => max x 0 ^ 2)).sum) ∧
      ((estimateKeyAndMode (fun _ => 0) [(1 : ℚ), -1] 2).2 = "Minor" ↔
        ([(1 : ℚ), -1].map (fun x => max x 0 ^ 2)).sum <
          ([(1 : ℚ), -1].map (fun x => max (-x) 0 ^ 2)).sum)) :=
  key_mode_estimation (fun _ => 0) [(1 : ℚ), -1] 2 (by decide) (by decide)

lemma sum_zipWith_eq_range {α β M : Type} [AddCommMonoid M] (f : α → β → M)
    (d₁ : α) (d₂ : β) :
    ∀ (a : List α) (b : List β),
      (List.zipWith f a b).sum =
        ((List.range (min a.length b.length)).map
          (fun i => f (a.getD i d₁) (b.getD i d₂))).sum := by
  intro a
  induction a with
  | nil => intro b; simp
  | cons x xs ih =>
      intro b
      cases b with
      | nil => simp
      | cons y ys =>
          simp only [List.zipWith_cons_cons, List.sum_cons, List.length_cons]
          rw [ih ys]
          have hmin : min (xs.length + 1) (ys.length + 1) = min xs.length ys.length + 1 := by
            omega
          rw [hmin, List.range_succ_eq_map, List.map_cons, List.sum_cons, List.map_map]
          have hmap : ∀ i ∈ List.range (min xs.length ys.length),
              ((fun i => f ((x :: xs).getD i d₁) ((y :: ys).getD i d₂)) ∘ Nat.succ) i =
                f (xs.getD i d₁) (ys.getD i d₂) := by
            intro i _
            simp [List.getD_cons_succ]
          rw [List.map_congr_left hmap]
          simp [List.getD_cons_zero]

lemma frameDiff_eq_spec (a b : List (List ℚ)) : frameDiff a b = specMeanAbsDiff a b := by
  simp only [frameDiff, specMeanAbsDiff]
  have hcount : ((List.zipWith (fun rp rc => List.zipWith (fun p c => |c - p|) rp rc) a b).map
      (fun r => r.length)).sum =
      ((List.range (min a.length b.length)).map
        (fun y => min (a.getD y []).length (b.getD y []).length)).sum := by
    rw [List.map_zipWith, sum_zipWith_eq_range _ [] []]
    apply congrArg
    apply List.map_congr_left
    intro y _
    simp [List.length_zipWith]
  have htotal : ((List.zipWith (fun rp rc => List.zipWith (fun p c => |c - p|) rp rc) a b).map
      (fun r => r.sum)).sum =
      ((List.range (min a.length b.length)).map (fun y =>
        ((List.range (min (a.getD y []).length (b.getD y []).length)).map (fun x =>
          |(b.getD y []).getD x 0 - (a.getD y []).getD x 0|)).sum)).sum := by
    rw [List.map_zipWith, sum_zipWith_eq_range _ [] []]
    apply congrArg
    apply List.map_congr_left
    intro y _
    rw [sum_zipWith_eq_range _ 0 0]
  rw [hcount, htotal]

lemma motionProfile_eq_zipWith :
    ∀ frames : List (List (List ℚ)),
      motionProfile frames = List.zipWith specMeanAbsDiff frames frames.tail := by
  intro frames
  induction frames with
  | nil => rfl
  | cons a rest ih =>
      cases rest with
      | nil => rfl
      | cons b rest2 =>
          rw [motionProfile, frameDiff_eq_spec, ih]
          rfl

lemma motionProfile_length (frames : List (List (List ℚ))) :
    (motionProfile frames).length = frames.length - 1 := by
  rw [motionProfile_eq_zipWith, List.length_zipWith]
  cases frames <;> simp

/-- **C7**: for a non-empty frame sequence of `N` frames the motion profile
has exactly `N - 1` entries, entrywise the mean absolute pixel difference
over the minimum common extent of each consecutive pair; `average_motion`
is its mean (`0` for fewer than 2 frames) and `motion_variability` its
population standard deviation. -/
theorem motion_profile_stats (frames : List (List (List ℚ))) (fps : ℚ)
    (h : frames ≠ []) :
    ∃ r, analyzeFrames frames fps = Except.ok r ∧
      (motionProfile frames).length = frames.length - 1 ∧
      motionProfile frames = List.zipWith specMeanAbsDiff frames frames.tail ∧
      r.average_motion = (if frames.length < 2 then 0
        else (motionProfile frames).sum / ((motionProfile frames).length : ℚ)) ∧
      r.motion_variability = specPopStddev (motionProfile frames) := by
  have hempty : motionProfile frames = [] ↔ frames.length < 2 := by
    have hl := motionProfile_length frames
    constructor
    · intro he
      rw [he] at hl
      simp at hl
      omega
    · intro hlt
      have : (motionProfile frames).length = 0 := by omega
      exact List.length_eq_zero.mp this
  unfold analyzeFrames
  rw [if_neg h]
  refine ⟨_, rfl, motionProfile_length frames, motionProfile_eq_zipWith frames, ?_, ?_⟩
  · by_cases hp : motionProfile frames = []
    · simp only [if_pos hp, if_pos (hempty.mp hp)]
    · simp only [if_neg hp, if_neg (fun hlt => hp (hempty.mpr hlt))]
  · by_cases hp : motionProfile frames = []
    · simp only [specPopStddev, if_pos hp]
    · simp only [specPopStddev, stddev, if_neg hp]

/-- Witness for `motion_profile_stats`. -/
theorem motion_profile_stats_witness :
    ∃ r, analyzeFrames [[[0, 1], [2, 3]], [[1, 1], [1, 1]]] 30 = Except.ok r ∧
      (motionProfile [[[0, 1], [2, 3]], [[1, 1], [1, 1]]]).length =
        ([[[(0 : ℚ), 1], [2, 3]], [[1, 1], [1, 1]]] : List (List (List ℚ))).length - 1 ∧
      motionProfile [[[0, 1], [2, 3]], [[1, 1], [1, 1]]] =
        List.zipWith specMeanAbsDiff [[[0, 1], [2, 3]], [[1, 1], [1, 1]]]
          ([[[(0 : ℚ), 1], [2, 3]], [[1, 1], [1, 1]]] : List (List (List ℚ))).tail ∧
      r.average_motion = (if ([[[(0 : ℚ), 1], [2, 3]], [[1, 1], [1, 1]]] : List (List (List ℚ))).length < 2 then 0
        else (motionProfile [[[0, 1], [2, 3]], [[1, 1], [1, 1]]]).sum /
          ((motionProfile [[[0, 1], [2, 3]], [[1, 1], [1, 1]]]).length : ℚ)) ∧
      r.motion_variability = specPopStddev (motionProfile [[[0, 1], [2, 3]], [[1, 1], [1, 1]]]) :=
  motion_profile_stats [[[0, 1], [2, 3]], [[1, 1], [1, 1]]] 30 (by decide)

lemma of_mem_zipWith {α β γ : Type} (f : α → β → γ) :
    ∀ (l₁ : List α) (l₂ : List β) (x : γ), x ∈ List.zipWith f l₁ l₂ → ∃ a b, x = f a b := by
  intro l₁
  induction l₁ with
  | nil => intro l₂ x hx; simp at hx
  | cons a as ih =>
      intro l₂ x hx
      cases l₂ with
      | nil => simp at hx
      | cons b bs =>
          rw [List.zipWith_cons_cons, List.mem_cons] at hx
          rcases hx with h | h
          · exact ⟨a, b, h⟩
          · exact ih bs x h

lemma rms_nonneg (s : List ℚ) : 0 ≤ rms s := Rat.sqrt_nonneg _

lemma stddev_nonneg (v : List ℚ) : 0 ≤ stddev v := by
  simp only [stddev]
  split
  · norm_num
  · exact Rat.sqrt_nonneg _

lemma estimateTempo_nonneg (s : List ℚ) (sr : ℤ) (h : 0 ≤ sr) :
    0 ≤ estimateTempo s sr := by
  have hsr : (0 : ℚ) ≤ (sr : ℚ) := by exact_mod_cast h
  simp only [estimateTempo]
  split
  · norm_num
  · split
    · norm_num
    · split
      · norm_num
      · exact div_nonneg (mul_nonneg (by norm_num) hsr) (Nat.cast_nonneg _)

lemma spectralCentroid_nonneg (s : List ℚ) (sr : ℤ) (h : 0 ≤ sr) :
    0 ≤ spectralCentroid s sr := by
  have hsr : (0 : ℚ) ≤ (sr : ℚ) := by exact_mod_cast h
  simp only [spectralCentroid]
  split
  · norm_num
  · split
    · norm_num
    · apply div_nonneg _ (by norm_num)
      apply mul_nonneg _ hsr
      apply div_nonneg _ (Nat.cast_nonneg _)
      apply List.sum_nonneg
      intro x hx
      obtain ⟨a, b, hab⟩ := of_mem_zipWith _ _ _ _ hx
      rw [hab]
      exact abs_nonneg _

lemma specMeanAbsDiff_nonneg (a b : List (List ℚ)) : 0 ≤ specMeanAbsDiff a b := by
  simp only [specMeanAbsDiff]
  split
  · norm_num
  · apply div_nonneg _ (Nat.cast_nonneg _)
    apply List.sum_nonneg
    intro x hx
    rw [List.mem_map] at hx
    obtain ⟨y, _, hy⟩ := hx
    rw [← hy]
    apply List.sum_nonneg
    intro z hz
    rw [List.mem_map] at hz
    obtain ⟨w, _, hw⟩ := hz
    rw [← hw]
    exact abs_nonneg _

lemma motionProfile_sum_nonneg (frames : List (List (List ℚ))) :
    0 ≤ (motionProfile frames).sum := by
  apply List.sum_nonneg
  intro x hx
  rw [motionProfile_eq_zipWith] at hx
  obtain ⟨a, b, hab⟩ := of_mem_zipWith _ _ _ _ hx
  rw [hab]
  exact specMeanAbsDiff_nonneg a b

lemma footworkOfFrame_nonneg (frame : List (List ℚ)) : 0 ≤ footworkOfFrame frame := by
  simp only [footworkOfFrame]
  split
  · norm_num
  · apply div_nonneg _ (Nat.cast_nonneg _)
    apply List.sum_nonneg
    intro x hx
    rw [List.mem_map] at hx
    obtain ⟨r, hr, hrx⟩ := hx
    rw [← hrx]
    apply List.sum_nonneg
    intro z hz
    rw [List.mem_map] at hr
    obtain ⟨yr, _, hyr⟩ := hr
    rw [← hyr] at hz
    rw [List.mem_map] at hz
    obtain ⟨xc, _, hxc⟩ := hz
    rw [← hxc]
    exact Rat.sqrt_nonneg _

lemma estimateFootworkIntensity_nonneg (frames : List (List (List ℚ))) :
    0 ≤ estimateFootworkIntensity frames := by
  simp only [estimateFootworkIntensity]
  split
  · norm_num
  · apply div_nonneg _ (Nat.cast_nonneg _)
    apply List.sum_nonneg
    intro x hx
    rw [List.mem_map] at hx
    obtain ⟨fr, _, hfr⟩ := hx
    rw [← hfr]
    exact footworkOfFrame_nonneg fr

/-- **C8** (amended): all numeric fields of a successful analysis are
nonnegative, with the audio side restricted to non-negative sample rates
(for a negative sample rate the brightness proxy inherits its sign, see the
counterexample); the dance side is unconditional and `direction_changes` is
a natural number. -/
theorem descriptor_nonneg_amended :
    (∀ (log2M : ℚ → ℚ) (s : List ℚ) (sr : ℤ), 0 ≤ sr →
      audioFieldsNonneg (analyzeSignal log2M s sr)) ∧
    (∀ (frames : List (List (List ℚ))) (fps : ℚ),
      danceFieldsNonneg (analyzeFrames frames fps)) := by
  constructor
  · intro log2M s sr hsr
    by_cases hs : s = []
    · subst hs
      simp [analyzeSignal, audioFieldsNonneg]
    · have heff : (0 : ℤ) ≤ (if sr = 0 then 22050 else sr) := by
        split <;> omega
      simp only [analyzeSignal, if_neg hs, audioFieldsNonneg]
      exact ⟨estimateTempo_nonneg _ _ heff, rms_nonneg _,
        spectralCentroid_nonneg _ _ heff⟩
  · intro frames fps
    by_cases hf : frames = []
    · subst hf
      simp [analyzeFrames, danceFieldsNonneg]
    · simp only [analyzeFrames, if_neg hf, danceFieldsNonneg]
      refine ⟨?_, ?_, ?_, ?_⟩
      · by_cases hp : motionProfile frames = []
        · rw [if_pos hp]
        · rw [if_neg hp]
          exact div_nonneg (motionProfile_sum_nonneg frames) (Nat.cast_nonneg _)
      · by_cases hp : motionProfile frames = []
        · rw [if_pos hp]
        · rw [if_neg hp]
          exact stddev_nonneg _
      · exact Int.natCast_nonneg _
      · exact estimateFootworkIntensity_nonneg frames

/-- Witness for `descriptor_nonneg_amended`. -/
theorem descriptor_nonneg_amended_witness :
    audioFieldsNonneg (analyzeSignal (fun _ => 0) [1, 2] 4) ∧
    danceFieldsNonneg (analyzeFrames [[[0, 1], [2, 3]], [[1, 1], [1, 1]]] 30) :=
  ⟨descriptor_nonneg_amended.1 (fun _ => 0) [1, 2] 4 (by decide),
    descriptor_nonneg_amended.2 [[[0, 1], [2, 3]], [[1, 1], [1, 1]]] 30⟩

/-- Counterexample to **C8** as stated: the waveform `[0, 1]` at sample
rate `-2` is accepted by `analyze_signal` (no error is raised), yet the
resulting `spectral_centroid` is `-1 < 0`. -/
theorem descriptor_nonneg_counterexample :
    (analyzeSignal (fun _ => 0) [0, 1] (-2)).isOk = true ∧
    centroidOf (analyzeSignal (fun _ => 0) [0, 1] (-2)) = -1 ∧
    ¬ audioFieldsNonneg (analyzeSignal (fun _ => 0) [0, 1] (-2)) := by
  have hnorm : normalize [(0 : ℚ), 1] = [0, 1] := by
    norm_num [normalize, max_def]
  have hcent : spectralCentroid [(0 : ℚ), 1] (-2) = -1 := by
    norm_num [spectralCentroid, List.zipWith_cons_cons]
  refine ⟨rfl, ?_, ?_⟩
  · simp only [analyzeSignal, centroidOf]
    rw [if_neg (by simp : ¬([(0 : ℚ), 1] = [])), if_neg (by decide : ¬((-2 : ℤ) = 0))]
    rw [hnorm, hcent]
  · simp only [analyzeSignal, audioFieldsNonneg]
    rw [if_neg (by simp : ¬([(0 : ℚ), 1] = [])), if_neg (by decide : ¬((-2 : ℤ) = 0))]
    intro hcontra
    have hneg := hcontra.2.2
    rw [hnorm, hcent] at hneg
    norm_num at hneg

lemma searchBest_mem (c : List ℚ) :
    ∀ (lags : List ℕ) (bv : Option ℚ) (bl : ℕ),
      searchBest c lags bv bl = bl ∨ searchBest c lags bv bl ∈ lags := by
  intro lags
  induction lags with
  | nil => intro bv bl; exact Or.inl rfl
  | cons lag rest ih =>
      intro bv bl
      simp only [searchBest]
      split
      · rcases ih (some (correlationAt c lag)) lag with h | h
        · right
          rw [h]
          exact List.mem_cons_self _ _
        · right
          exact List.mem_cons_of_mem _ h
      · rcases ih bv bl with h | h
        · exact Or.inl h
        · right
          exact List.mem_cons_of_mem _ h

lemma tempo_final_bounds (c : List ℚ) (sr minLag maxLag : ℤ) (hsr : 1 ≤ sr)
    (hmin : 1 ≤ minLag) (hlag : ¬(maxLag ≤ minLag))
    (hmaxle : ((maxLag : ℤ) : ℚ) ≤ (sr : ℚ) * 60 / 40) :
    (if searchBest c (List.range' minLag.toNat (maxLag - minLag).toNat) none minLag.toNat = 0
        then (0 : ℚ)
        else 60 * (sr : ℚ) /
          ((searchBest c (List.range' minLag.toNat (maxLag - minLag).toNat) none
            minLag.toNat : ℕ) : ℚ)) = 0 ∨
      (40 < (if searchBest c (List.range' minLag.toNat (maxLag - minLag).toNat) none
              minLag.toNat = 0
          then (0 : ℚ)
          else 60 * (sr : ℚ) /
            ((searchBest c (List.range' minLag.toNat (maxLag - minLag).toNat) none
              minLag.toNat : ℕ) : ℚ)) ∧
        (if searchBest c (List.range' minLag.toNat (maxLag - minLag).toNat) none
              minLag.toNat = 0
          then (0 : ℚ)
          else 60 * (sr : ℚ) /
            ((searchBest c (List.range' minLag.toNat (maxLag - minLag).toNat) none
              minLag.toNat : ℕ) : ℚ)) ≤ 60 * (sr : ℚ) / ((minLag : ℤ) : ℚ)) := by
  have hmem := searchBest_mem c (List.range' minLag.toNat (maxLag - minLag).toNat) none
    minLag.toNat
  set b := searchBest c (List.range' minLag.toNat (maxLag - minLag).toNat) none minLag.toNat
    with hbdef
  have hminmax : minLag < maxLag := not_le.mp hlag
  have hbounds : minLag.toNat ≤ b ∧ b < maxLag.toNat := by
    rcases hmem with h | h
    · omega
    · rw [List.mem_range'_1] at h
      omega
  have hbne : ¬(b = 0) := by omega
  rw [if_neg hbne]
  right
  have hbQpos : (0 : ℚ) < (b : ℚ) := by
    have : 0 < b := by omega
    exact_mod_cast this
  have hsrQ : (1 : ℚ) ≤ (sr : ℚ) := by exact_mod_cast hsr
  constructor
  · have hbZ : (b : ℤ) < maxLag := by omega
    have hbQ : ((b : ℕ) : ℚ) < ((maxLag : ℤ) : ℚ) := by exact_mod_cast hbZ
    rw [lt_div_iff₀ hbQpos]
    have := lt_of_lt_of_le hbQ hmaxle
    linarith
  · have hminZ : minLag ≤ (b : ℤ) := by omega
    have hminQ : ((minLag : ℤ) : ℚ) ≤ ((b : ℕ) : ℚ) := by exact_mod_cast hminZ
    have hminQpos : (0 : ℚ) < ((minLag : ℤ) : ℚ) := by
      have : (0 : ℤ) < minLag := by omega
      exact_mod_cast this
    rw [div_le_div_iff₀ hbQpos hminQpos]
    have h60 : (0 : ℚ) ≤ 60 * (sr : ℚ) := by linarith
    exact mul_le_mul_of_nonneg_left hminQ h60

lemma estimateTempo_bounds (s : List ℚ) (sr : ℤ) (hsr : 1 ≤ sr) :
    estimateTempo s sr = 0 ∨
      (40 < estimateTempo s sr ∧
        estimateTempo s sr ≤
          60 * (sr : ℚ) / ((max 1 (truncQ ((sr : ℚ) * 60 / 200)) : ℤ) : ℚ)) := by
  have hsrQ : (0 : ℚ) ≤ (sr : ℚ) := by
    have : (0 : ℤ) ≤ sr := by omega
    exact_mod_cast this
  simp only [estimateTempo]
  split
  · exact Or.inl rfl
  · split
    · exact Or.inl rfl
    · rename_i hlag
      apply tempo_final_bounds _ _ _ _ hsr (le_max_left _ _) hlag
      have h1 := min_le_right
        (((List.map
            (fun x => x - (envelopeOf s sr).sum / ((envelopeOf s sr).length : ℚ))
            (envelopeOf s sr)).length : ℤ) - 1)
        (truncQ ((sr : ℚ) * 60 / 40))
      have h2 : ((truncQ ((sr : ℚ) * 60 / 40) : ℤ) : ℚ) ≤ (sr : ℚ) * 60 / 40 :=
        truncQ_le_self (by positivity)
      have h1Q : ((min (((List.map
            (fun x => x - (envelopeOf s sr).sum / ((envelopeOf s sr).length : ℚ))
            (envelopeOf s sr)).length : ℤ) - 1)
          (truncQ ((sr : ℚ) * 60 / 40)) : ℤ) : ℚ) ≤
          ((truncQ ((sr : ℚ) * 60 / 40) : ℤ) : ℚ) := by exact_mod_cast h1
      linarith

/-- **C1** (amended): the reported tempo is `0` or lies in the interval
`(40, 60 * sample_rate / max(1, int(sample_rate * 60 / 200))]`.  The upper
end equals `200` exactly when `int` truncation loses nothing (e.g. sample
rates divisible by 10, in particular the default 22050); for other sample
rates it can exceed `200`, so the claimed `[40, 200]` bound fails (see the
counterexample). -/
theorem tempo_range (log2M : ℚ → ℚ) (s : List ℚ) (sr : ℤ)
    (hs : s ≠ []) (hsr : 1 ≤ sr) :
    tempoOf (analyzeSignal log2M s sr) = 0 ∨
      (40 < tempoOf (analyzeSignal log2M s sr) ∧
        tempoOf (analyzeSignal log2M s sr) ≤
          60 * (sr : ℚ) / ((max 1 (truncQ ((sr : ℚ) * 60 / 200)) : ℤ) : ℚ)) := by
  have hsr0 : ¬(sr = 0) := by omega
  have hrw : tempoOf (analyzeSignal log2M s sr) = estimateTempo (normalize s) sr := by
    simp only [analyzeSignal, if_neg hs, if_neg hsr0, tempoOf]
  rw [hrw]
  exact estimateTempo_bounds (normalize s) sr hsr

/-- Witness for `tempo_range`. -/
theorem tempo_range_witness :
    tempoOf (analyzeSignal (fun _ => 0) [1, 0, 1] 4) = 0 ∨
      (40 < tempoOf (analyzeSignal (fun _ => 0) [1, 0, 1] 4) ∧
        tempoOf (analyzeSignal (fun _ => 0) [1, 0, 1] 4) ≤
          60 * ((4 : ℤ) : ℚ) / ((max 1 (truncQ (((4 : ℤ) : ℚ) * 60 / 200)) : ℤ) : ℚ)) :=
  tempo_range (fun _ => 0) [1, 0, 1] 4 (by decide) (by decide)

/-- Counterexample to **C1** as stated: the waveform `[1, 0, 1]` at sample
rate `4` is reported with tempo `240`, which is neither `0` nor within
`[40, 200]`. -/
theorem tempo_range_counterexample :
    tempoOf (analyzeSignal (fun _ => 0) [1, 0, 1] 4) = 240 ∧
    ¬(tempoOf (analyzeSignal (fun _ => 0) [1, 0, 1] 4) = 0 ∨
      (40 ≤ tempoOf (analyzeSignal (fun _ => 0) [1, 0, 1] 4) ∧
        tempoOf (analyzeSignal (fun _ => 0) [1, 0, 1] 4) ≤ 200)) := by
  have hnorm : normalize [(1 : ℚ), 0, 1] = [1, 0, 1] := by
    norm_num [normalize, max_def, abs_of_nonneg]
  have htempo : estimateTempo [(1 : ℚ), 0, 1] 4 = 240 := by
    norm_num [estimateTempo, envelopeOf, movingAverage, tempoWindow, truncQ, searchBest,
      correlationAt, List.zipWith_cons_cons, abs_of_nonneg, abs_of_nonpos]
  have h240 : tempoOf (analyzeSignal (fun _ => 0) [1, 0, 1] 4) = 240 := by
    have hrw : tempoOf (analyzeSignal (fun _ => 0) [1, 0, 1] 4) =
        estimateTempo (normalize [1, 0, 1]) 4 := by
      simp only [analyzeSignal, if_neg (by simp : ¬([(1 : ℚ), 0, 1] = [])),
        if_neg (by decide : ¬((4 : ℤ) = 0)), tempoOf]
    rw [hrw, hnorm, htempo]
  refine ⟨h240, ?_⟩
  rw [h240]
  norm_num

/-- **C4** (amended): the amplitude envelope used for tempo estimation is
the causal running mean of the per-sample absolute values — each output
point averaging the most recent up-to-`window` absolute values — over a
window of `max(1, int(sample_rate * 0.05))` samples, i.e. with the factor
*truncated* toward zero rather than rounded to the nearest integer as the
claim states (see the counterexample at sample rate 30). -/
theorem envelope_running_mean (s : List ℚ) (sr : ℤ) (_hs : s ≠ []) :
    envelopeOf s sr = runningMeanSpec (s.map (fun x => |x|)) (tempoWindow sr).toNat := by
  unfold envelopeOf
  exact movingAverage_eq_runningMean _ _ (one_le_tempoWindow sr)

/-- Witness for `envelope_running_mean`. -/
theorem envelope_running_mean_witness :
    envelopeOf [1, 0] 30 =
      runningMeanSpec ([(1 : ℚ), 0].map (fun x => |x|)) (tempoWindow 30).toNat :=
  envelope_running_mean [1, 0] 30 (by decide)

/-- Counterexample to **C4** as stated: at sample rate 30 the code's window
is `max(1, int(1.5)) = 1`, while the claim's `round(30 * 0.05) = 2`; on the
normalized signal `[1, 0]` the code's envelope is `[1, 0]` but the claimed
running mean over window 2 is `[1, 1/2]`. -/
theorem envelope_round_counterexample :
    envelopeOf [1, 0] 30 = [1, 0] ∧
    runningMeanSpec ([(1 : ℚ), 0].map (fun x => |x|))
      (max 1 (round (((30 : ℤ) : ℚ) * (5 / 100)))).toNat = [1, 1 / 2] ∧
    ¬(envelopeOf [1, 0] 30 =
      runningMeanSpec ([(1 : ℚ), 0].map (fun x => |x|))
        (max 1 (round (((30 : ℤ) : ℚ) * (5 / 100)))).toNat) := by
  have h1 : envelopeOf [1, 0] 30 = [1, 0] := by
    norm_num [envelopeOf, movingAverage, tempoWindow, truncQ, abs_of_nonneg]
  have hround : (max 1 (round (((30 : ℤ) : ℚ) * (5 / 100)))).toNat = 2 := by
    norm_num [round_eq]
    rfl
  have h2 : runningMeanSpec ([(1 : ℚ), 0].map (fun x => |x|)) 2 = [1, 1 / 2] := by
    norm_num [runningMeanSpec, lastN, abs_of_nonneg, List.range_succ]
  refine ⟨h1, by rw [hround]; exact h2, ?_⟩
  rw [h1, hround, h2]
  intro hc
  simp only [List.cons.injEq] at hc
  norm_num at hc

end Multiscope
